import Mathlib

/-!
Telemetry parsing, full-rate log, mailbox and correlated log of gst_viewer_vicon.c.

Shallow embedding of `src/src/gst_viewer_vicon.c`.

* Bytes are natural numbers below 256; the comma is 44, the C string terminator is 0.
* A `char *` is modelled by the memory it points into: `Mem = Nat → Nat`, where `m i` is the
  byte found at offset `i` from the pointer.  The callers pass arrays of `VICON_MAX_PKT` bytes;
  the bytes of such an array beyond the received length are whatever was there before
  (an earlier datagram, or the indeterminate initial content of a local array).
* A log file is the list of the rows printed to it.  One row is what one call of
  `csv_write_parsed_packet` prints: the `%s` text of the timestamp, then for each copied float
  `,%.6f`, then a newline.  A float is kept as the 4 bytes of its object representation.
* Outcomes of the environment (`malloc`, `fopen`, `recvfrom`) are explicit inputs.
-/

namespace ViconViewer

/-- Memory seen through a `char *`: the byte at each offset from the pointer. -/
abbrev Mem := Nat → Nat

/-- The constant `VICON_MAX_PKT` (2048), size of `buf`, `last_pkt_buf` and `copy_buf`. -/
def VICON_MAX_PKT : Nat := 2048

/-- The `n` bytes of `m` starting at offset `off`. -/
def readBytes (m : Mem) (off n : Nat) : List Nat :=
  (List.range n).map fun i => m (off + i)

/-- `memcpy(dst, src, n)` for two arrays: the first `n` bytes of `dst` become those of `src`. -/
def memcpy (dst src : Mem) (n : Nat) : Mem :=
  fun i => if i < n then src i else dst i

/-- Scan of `memchr`: looks at offsets `i, i+1, ..., i+k-1` and stops at the first byte `c`. -/
def memchr_from (data : Mem) (c : Nat) : Nat → Nat → Option Nat
  | _, 0 => none
  | i, k + 1 => if data i = c then some i else memchr_from data c (i + 1) k

/-- `memchr(data, c, n)`: offset of the first byte equal to `c` among the first `n`, if any. -/
def memchr (data : Mem) (c n : Nat) : Option Nat :=
  memchr_from data c 0 n

/-- Offsets read by the scan of `memchr`, in order: up to and including the first match. -/
def memchr_reads (data : Mem) (c : Nat) : Nat → Nat → List Nat
  | _, 0 => []
  | i, k + 1 => if data i = c then [i] else i :: memchr_reads data c (i + 1) k

/-- Conversion `(int)x` of a wider signed value: wraps modulo 2^32 into [-2^31, 2^31). -/
def toInt32 (x : Int) : Int :=
  (x + 2147483648) % 4294967296 - 2147483648

/-- One printed row: the timestamp text and the floats (4 bytes each) printed after it. -/
structure Row where
  timestamp : List Nat
  coords : List (List Nat)
deriving DecidableEq

/-- The function `csv_write_parsed_packet(f, data, len)` (lines 93-118).

`f` is `true` when the `FILE *` is not NULL, `malloc_ok` when `malloc` returns a block.
The result is what is printed to `f`: nothing, or one row.
`ts_len` is clamped to 127 before `float_len` is computed from it, as in the source;
`float_data` is `comma + 1`. `fprintf(f, "%s", timestamp)` prints the copied bytes up to the
first zero byte (the array has 128 zeroed bytes and at most 127 are copied). -/
def csv_write_parsed_packet (f : Bool) (data : Mem) (len : Int) (malloc_ok : Bool) :
    Option Row :=
  if !f || len ≤ 0 then none else
  match memchr data 44 len.toNat with
  | none => none
  | some comma =>
    let ts_len : Nat := if comma ≥ 128 then 127 else comma
    let timestamp := readBytes data 0 ts_len
    let float_data := comma + 1
    let float_len : Int := len - ((ts_len : Int) + 1)
    if float_len ≤ 0 then none else
    let nf : Int := toInt32 (float_len / 4)
    if nf ≤ 0 then none else
    if !malloc_ok then none else
    let coords := (List.range nf.toNat).map fun i => readBytes data (float_data + 4 * i) 4
    some ⟨timestamp.takeWhile (fun b => b != 0), coords⟩

/-- Offsets of `data` that `csv_write_parsed_packet(f, data, len)` reads, in program order:
the scan of `memchr`, the `memcpy` of `ts_len` bytes into `timestamp`, and the `memcpy` of
`nf * sizeof(float)` bytes from `float_data` into `coords`. Same control flow as
`csv_write_parsed_packet`. -/
def csv_reads (f : Bool) (data : Mem) (len : Int) (malloc_ok : Bool) : List Nat :=
  if !f || len ≤ 0 then [] else
  match memchr data 44 len.toNat with
  | none => memchr_reads data 44 0 len.toNat
  | some comma =>
    let ts_len : Nat := if comma ≥ 128 then 127 else comma
    let float_data := comma + 1
    let float_len : Int := len - ((ts_len : Int) + 1)
    let r0 := memchr_reads data 44 0 len.toNat ++ List.range ts_len
    if float_len ≤ 0 then r0 else
    let nf : Int := toInt32 (float_len / 4)
    if nf ≤ 0 then r0 else
    if !malloc_ok then r0 else
    r0 ++ (List.range (nf.toNat * 4)).map fun i => float_data + i

/-- Memory holding the bytes `bs` from offset 0 on and zero bytes after them. -/
def memOf (bs : List Nat) : Mem := fun i => bs.getD i 0

/-- The variables the two threads work on: the receive buffer `buf` of `vicon_thread_fn`, the
data rows printed to `vicon_100hz_csv` (after its header line), the mailbox
`last_pkt_len` / `last_pkt_buf`, and the rows printed to `vicon_frame_csv`. -/
structure State where
  buf : Mem
  f100 : List Row
  last_pkt_len : Nat
  last_pkt_buf : Mem
  frame_csv : List Row

/-- State when the receiver loop is entered: `last_pkt_len` and `last_pkt_buf` are statics
(zero), both logs have no data row yet, `buf` is a local array with indeterminate content. -/
def init (buf : Mem) : State :=
  { buf := buf, f100 := [], last_pkt_len := 0, last_pkt_buf := fun _ => 0, frame_csv := [] }

/-- The call `recvfrom(vicon_sock, buf, sizeof(buf), ...)` delivering the datagram `dgram`: the return
value is the number of bytes stored, at most `sizeof(buf)`; the rest of `buf` is untouched. -/
def recvfrom (buf : Mem) (dgram : List Nat) : Int × Mem :=
  let n := min dgram.length VICON_MAX_PKT
  ((n : Int), memcpy buf (memOf dgram) n)

/-- Lines 203-207: publication of the `n` received bytes of `buf` in the mailbox. -/
def publish (s : State) (buf : Mem) (n : Int) : State :=
  let n : Nat := if n.toNat > VICON_MAX_PKT then VICON_MAX_PKT else n.toNat
  { s with last_pkt_buf := memcpy s.last_pkt_buf buf n, last_pkt_len := n }

/-- One turn of the loop of `vicon_thread_fn` (lines 191-207). `r` is what `recvfrom` does:
`none` when it returns -1, `some dgram` when it delivers a datagram. `f100` is open. -/
def vicon_thread_iter (s : State) (r : Option (List Nat)) (malloc_ok : Bool) : State :=
  match r with
  | none => s
  | some dgram =>
    let (n, buf) := recvfrom s.buf dgram
    let s := { s with buf := buf }
    if n ≤ 0 then s else
    let s := { s with f100 := s.f100 ++ (csv_write_parsed_packet true buf n malloc_ok).toList }
    publish s buf n

/-- Lines 238-246 of `cb`: copy of the mailbox into the local `copy_buf`, whose initial
content `copy_buf` is indeterminate. Gives `(copy_len, copy_buf)`. -/
def snapshot (s : State) (copy_buf : Mem) : Nat × Mem :=
  if s.last_pkt_len > 0 then
    let copy_len := if s.last_pkt_len > VICON_MAX_PKT then VICON_MAX_PKT else s.last_pkt_len
    (copy_len, memcpy copy_buf s.last_pkt_buf copy_len)
  else (0, copy_buf)

/-- The part of the frame callback `cb` that touches the telemetry (lines 238-254): snapshot
of the mailbox, then one call of `csv_write_parsed_packet` on the copy if it is not empty.
`fopen_ok` tells whether `fopen(vicon_frame_csv, "a")` gives a file. -/
def cb (s : State) (copy_buf : Mem) (fopen_ok malloc_ok : Bool) : State :=
  let (copy_len, copy_buf) := snapshot s copy_buf
  if copy_len > 0 then
    if fopen_ok then
      { s with frame_csv := s.frame_csv ++
          (csv_write_parsed_packet true copy_buf (copy_len : Int) malloc_ok).toList }
    else s
  else s

/-- What happens to the telemetry state, one event at a time: a turn of the receiver loop
(`recvfrom` failing, or delivering a datagram) or a video frame arriving. -/
inductive Event where
  | recv_fail
  | packet (dgram : List Nat) (malloc_ok : Bool)
  | frame (copy_buf : Mem) (fopen_ok malloc_ok : Bool)

/-- Effect of one event. -/
def step (s : State) : Event → State
  | .recv_fail => vicon_thread_iter s none true
  | .packet dgram malloc_ok => vicon_thread_iter s (some dgram) malloc_ok
  | .frame copy_buf fopen_ok malloc_ok => cb s copy_buf fopen_ok malloc_ok

/-- Effect of a sequence of events, in order. -/
def run (s : State) (es : List Event) : State :=
  es.foldl step s

/-- A valid telemetry packet in the sense of the specification: it has a comma and at least
4 bytes after its first comma. -/
def valid_packet (d : List Nat) : Prop :=
  44 ∈ d ∧ d.indexOf 44 + 4 < d.length

instance (d : List Nat) : Decidable (valid_packet d) := by
  unfold valid_packet; infer_instance

/-- Number of bytes of the packet `d` after its first comma. -/
def payload_len (d : List Nat) : Nat :=
  d.length - (d.indexOf 44 + 1)

/-- The row of the packet `d` taken alone: what `csv_write_parsed_packet` prints for it when
only zero bytes follow it in memory. -/
def render (d : List Nat) : Option Row :=
  csv_write_parsed_packet true (memOf d) (d.length : Int) true

/-- The timestamp field of `d` (the bytes before its first comma) has at most 127 bytes, or
`d` has no comma. -/
def short_timestamp (d : List Nat) : Prop :=
  44 ∉ d ∨ d.indexOf 44 ≤ 127

/-- The first `d.length` bytes of the memory `data` are the bytes of `d`. -/
def holds (data : Mem) (d : List Nat) : Prop :=
  ∀ i, i < d.length → data i = d.getD i 0

/-- Between any two consecutive frames of the event sequence a non-empty datagram is received
(and so published). `fresh` tells whether this is the case since the last frame before the
sequence; it is `true` when no frame arrived yet. -/
def frames_separated : Bool → List Event → Bool
  | _, [] => true
  | fresh, .recv_fail :: es => frames_separated fresh es
  | fresh, .packet d _ :: es => frames_separated (fresh || !d.isEmpty) es
  | fresh, .frame _ _ _ :: es => fresh && frames_separated false es

/-- One turn of the `while (vicon_run)` loop as the receiver thread sees it: the value of
`vicon_run` at the loop test, what `recvfrom` does (`none`: it returns -1), the value of
`vicon_run` at the test that follows a receive of no byte, and the outcome of `malloc`. -/
structure Turn where
  run_at_test : Bool
  recv : Option (List Nat)
  run_after_recv : Bool
  malloc_ok : Bool

/-- The event a turn of the receiver loop stands for. -/
def Turn.event (t : Turn) : Event :=
  match t.recv with
  | none => .recv_fail
  | some dgram => .packet dgram t.malloc_ok

/-- The loop of `vicon_thread_fn` (lines 190-208) over the turns that the run offers: it is
left at the loop test when `vicon_run` is 0, and by `break` when `recvfrom` gave no byte
(`n <= 0`) and `vicon_run` is 0; every other turn is followed by the next one. -/
def vicon_loop (s : State) : List Turn → State
  | [] => s
  | t :: ts =>
    if !t.run_at_test then s else
    let n : Int := match t.recv with
      | none => -1
      | some dgram => (recvfrom s.buf dgram).1
    let s := vicon_thread_iter s t.recv t.malloc_ok
    if n ≤ 0 then
      if !t.run_after_recv then s else vicon_loop s ts
    else vicon_loop s ts

/-- The thread function `vicon_thread_fn` (lines 175-212): when `fopen(vicon_100hz_csv, "w")`
fails it returns at once, otherwise it runs the loop. (The header line it prints first is not a
data row.) -/
def vicon_thread_fn (fopen_ok : Bool) (s : State) (turns : List Turn) : State :=
  if !fopen_ok then s else vicon_loop s turns

/-- Outcomes of the calls made by `main` (lines 300-448), in program order.
`list_option` is the test `argc > 1 && strcmp("-l", argv[1]) == 0`; `f100_fopen_ok` is the
`fopen` at the start of the telemetry thread; `eos_wait_returns` tells whether the wait for
the end-of-stream message (lines 414-417) comes to an end. -/
structure MainEnv where
  gst_src_init_ok : Bool
  uvc_init_ok : Bool
  socket_ok : Bool
  bind_ok : Bool
  list_option : Bool
  find_device_ok : Bool
  uvc_open_ok : Bool
  pthread_create_ok : Bool
  f100_fopen_ok : Bool
  stream_ctrl_ok : Bool
  start_streaming_ok : Bool
  eos_wait_returns : Bool

/-- What a run of `main` amounts to: the value it returns (`none` when it never returns),
whether video was streamed and recorded (`g_main_loop_run` was reached), and whether the
receiver loop of the telemetry thread ran. -/
structure MainResult where
  status : Option Int
  streamed : Bool
  receiver_ran : Bool
deriving DecidableEq

/-- The function `main` (lines 300-448) as a function of the outcomes of its calls. The result
of `thetauvc_get_stream_ctrl_format_size` is stored in `res` and overwritten by the result of
`uvc_start_streaming` without being tested; when `uvc_start_streaming` fails, the `else`
branch prints the error and control reaches the common cleanup and `return 0`. -/
def main (e : MainEnv) : MainResult :=
  if !e.gst_src_init_ok then ⟨some (-1), false, false⟩ else
  if !e.uvc_init_ok then ⟨some (-1), false, false⟩ else
  if !e.socket_ok then ⟨some (-1), false, false⟩ else
  if !e.bind_ok then ⟨some (-1), false, false⟩ else
  if e.list_option then ⟨some 0, false, false⟩ else
  if !e.find_device_ok then ⟨some (-1), false, false⟩ else
  if !e.uvc_open_ok then ⟨some (-1), false, false⟩ else
  if !e.pthread_create_ok then ⟨some (-1), false, false⟩ else
  let receiver_ran := e.f100_fopen_ok
  if e.start_streaming_ok then
    if e.eos_wait_returns then ⟨some 0, true, receiver_ran⟩
    else ⟨none, true, receiver_ran⟩
  else ⟨some 0, false, receiver_ran⟩

/-- Exit status of the process as its parent sees it: the low 8 bits of what `main` returns. -/
def exit_status (r : Int) : Int :=
  r % 256

/-- Every call succeeds, no `-l` option. -/
def env_ok : MainEnv :=
  { gst_src_init_ok := true, uvc_init_ok := true, socket_ok := true, bind_ok := true,
    list_option := false, find_device_ok := true, uvc_open_ok := true,
    pthread_create_ok := true, f100_fopen_ok := true, stream_ctrl_ok := true,
    start_streaming_ok := true, eos_wait_returns := true }

/-- Who holds `last_pkt_mtx`. -/
inductive Holder where
  | nobody
  | receiver
  | callback
deriving DecidableEq

/-- Program points of the receiver thread around lines 203-207: in `recvfrom` and
`csv_write_parsed_packet` (mutex not held, mailbox not touched); at `pthread_mutex_lock` with
`n > 0` received bytes in `buf`; inside `memcpy(last_pkt_buf, buf, n)` with `i` bytes copied;
before `last_pkt_len = n`; before `pthread_mutex_unlock`. -/
inductive RecvPc where
  | recv
  | lock (n : Nat)
  | copy (n i : Nat)
  | setlen (n : Nat)
  | unlock
deriving DecidableEq

/-- Program points of the frame callback around lines 238-246: outside them (the snapshot
`copy_len`, `copy_buf` of the last pass is in use); at `pthread_mutex_lock` with
`copy_len = 0`; before the test `last_pkt_len > 0`; inside
`memcpy(copy_buf, last_pkt_buf, copy_len)` with `i` bytes copied; before
`pthread_mutex_unlock`. -/
inductive CbPc where
  | idle
  | lock
  | test
  | copy (i : Nat)
  | unlock
deriving DecidableEq

/-- State of the two threads running together: the mutex, the receive buffer, the mailbox, the
locals of the callback, the two program points, and the history `published` of the packets
whose publication is complete (line 206 was executed for them), oldest first. -/
structure Conc where
  mtx : Holder
  buf : Mem
  last_pkt_len : Nat
  last_pkt_buf : Mem
  copy_len : Nat
  copy_buf : Mem
  rpc : RecvPc
  cpc : CbPc
  published : List (List Nat)

/-- Writing one byte. -/
def setByte (m : Mem) (i b : Nat) : Mem :=
  fun j => if j = i then b else m j

/-- A scheduling decision: the receiver thread takes its next step (`dgram` is what `recvfrom`
delivers if that step is the receive), or the callback takes its next step (`copy_buf` is the
indeterminate content of its local array if that step enters the callback). -/
inductive Move where
  | receiver (dgram : List Nat)
  | callback (copy_buf : Mem)

/-- One step of one thread. Each `memcpy` goes byte by byte, one byte per step, so that the
other thread can run between any two bytes; `pthread_mutex_lock` makes no step while the other
thread holds the mutex. -/
def cstep (c : Conc) : Move → Conc
  | .receiver dgram =>
    match c.rpc with
    | .recv =>
      let (n, buf) := recvfrom c.buf dgram
      if n ≤ 0 then { c with buf := buf } else { c with buf := buf, rpc := .lock n.toNat }
    | .lock n =>
      if c.mtx = .nobody then
        { c with mtx := .receiver,
                 rpc := .copy (if n > VICON_MAX_PKT then VICON_MAX_PKT else n) 0 }
      else c
    | .copy n i =>
      if i < n then
        { c with last_pkt_buf := setByte c.last_pkt_buf i (c.buf i), rpc := .copy n (i + 1) }
      else { c with rpc := .setlen n }
    | .setlen n =>
      { c with last_pkt_len := n, rpc := .unlock,
               published := c.published ++ [readBytes c.buf 0 n] }
    | .unlock => { c with mtx := .nobody, rpc := .recv }
  | .callback copy_buf =>
    match c.cpc with
    | .idle => { c with copy_len := 0, copy_buf := copy_buf, cpc := .lock }
    | .lock => if c.mtx = .nobody then { c with mtx := .callback, cpc := .test } else c
    | .test =>
      if c.last_pkt_len > 0 then
        { c with copy_len :=
                   if c.last_pkt_len > VICON_MAX_PKT then VICON_MAX_PKT else c.last_pkt_len,
                 cpc := .copy 0 }
      else { c with cpc := .unlock }
    | .copy i =>
      if i < c.copy_len then
        { c with copy_buf := setByte c.copy_buf i (c.last_pkt_buf i), cpc := .copy (i + 1) }
      else { c with cpc := .unlock }
    | .unlock => { c with mtx := .nobody, cpc := .idle }

/-- The steps of a schedule, in order. -/
def crun (c : Conc) (ms : List Move) : Conc :=
  ms.foldl cstep c

/-- Both threads at their start: mutex free, mailbox empty (statics are zero), nothing
published, no snapshot taken. -/
def cinit (buf copy_buf : Mem) : Conc :=
  { mtx := .nobody, buf := buf, last_pkt_len := 0, last_pkt_buf := fun _ => 0,
    copy_len := 0, copy_buf := copy_buf, rpc := .recv, cpc := .idle, published := [] }

/-- The snapshot `(copy_len, copy_buf)` is empty or is, bytes and length, one of the
published packets. -/
def snapshot_whole (c : Conc) : Prop :=
  c.copy_len = 0 ∨
    ∃ p ∈ c.published, p.length = c.copy_len ∧ readBytes c.copy_buf 0 c.copy_len = p

/-- The mailbox is empty or holds, bytes and length, one of the published packets. -/
def mailbox_whole (c : Conc) : Prop :=
  c.last_pkt_len = 0 ∨
    ∃ p ∈ c.published, p.length = c.last_pkt_len ∧
      readBytes c.last_pkt_buf 0 c.last_pkt_len = p

/-- The receiver thread is between its `pthread_mutex_lock` and `pthread_mutex_unlock`. -/
def RecvPc.inside : RecvPc → Bool
  | .copy _ _ | .setlen _ | .unlock => true
  | _ => false

/-- The callback is between its `pthread_mutex_lock` and `pthread_mutex_unlock`. -/
def CbPc.inside : CbPc → Bool
  | .test | .copy _ | .unlock => true
  | _ => false

/-- Invariant of the two threads: the mutex is held by the thread that is inside its critical
section; outside the two writes of the receiver the mailbox is whole; the bytes copied so far
agree with their source; `copy_len` is 0 until the callback sets it; a finished snapshot is
whole. -/
def conc_inv (c : Conc) : Prop :=
  (c.rpc.inside = true ↔ c.mtx = .receiver) ∧
  (c.cpc.inside = true ↔ c.mtx = .callback) ∧
  c.last_pkt_len ≤ VICON_MAX_PKT ∧
  (match c.rpc with
    | .recv => mailbox_whole c
    | .lock n => mailbox_whole c ∧ 0 < n
    | .copy n i => 0 < n ∧ n ≤ VICON_MAX_PKT ∧ i ≤ n ∧ ∀ j, j < i → c.last_pkt_buf j = c.buf j
    | .setlen n => 0 < n ∧ n ≤ VICON_MAX_PKT ∧ ∀ j, j < n → c.last_pkt_buf j = c.buf j
    | .unlock => mailbox_whole c) ∧
  (match c.cpc with
    | .idle => snapshot_whole c
    | .lock => c.copy_len = 0
    | .test => c.copy_len = 0
    | .copy i => c.copy_len = c.last_pkt_len ∧ i ≤ c.copy_len ∧
        ∀ j, j < i → c.copy_buf j = c.last_pkt_buf j
    | .unlock => snapshot_whole c)

/-- 131 bytes `A`, a comma, and six floats 1.0 (24 bytes): 156 bytes. -/
def pkt_long6 : List Nat :=
  List.replicate 131 65 ++ [44] ++ (List.replicate 6 [0, 0, 128, 63]).flatten

/-- 131 bytes `A` and a comma: 132 bytes, nothing after the comma. -/
def pkt_long0 : List Nat :=
  List.replicate 131 65 ++ [44]

/-- 131 bytes `A`, a comma, and one float 1.0: 136 bytes. -/
def pkt_long1 : List Nat :=
  List.replicate 131 65 ++ [44] ++ [0, 0, 128, 63]

/-- A packet of 140 bytes: timestamp `T00`, a comma, and 34 floats 2.0. -/
def pkt_q : List Nat :=
  [84, 48, 48, 44] ++ (List.replicate 34 [0, 0, 0, 64]).flatten

/-- A packet of 8 bytes whose timestamp field `a\0b` holds a zero byte, with one float 1.0. -/
def pkt_nul : List Nat :=
  [97, 0, 98, 44, 0, 0, 128, 63]

/-- A packet of 3 bytes `abc` without a comma. -/
def pkt_abc : List Nat :=
  [97, 98, 99]

/-- An array of 2048 bytes all `A` except a comma at offset 2043 (4 bytes follow the comma). -/
def mem_full : Mem :=
  fun i => if i = 2043 then 44 else 65

/-- A schedule of the two threads: the callback enters and waits for the mutex while the
receiver publishes the 8 bytes of `pkt_nul` byte by byte; then the callback takes its snapshot
while the receiver, holding the next packet `abc`, waits for the mutex. -/
def sched0 : List Move :=
  [.callback (memOf []), .receiver pkt_nul, .receiver []] ++
  List.replicate 3 (.receiver []) ++ [.callback (memOf [])] ++
  List.replicate 6 (.receiver []) ++ [.callback (memOf [])] ++
  [.receiver [], .receiver [], .callback (memOf []), .callback (memOf []),
   .receiver pkt_abc, .receiver []] ++
  List.replicate 10 (.callback (memOf []))

end ViconViewer

namespace ViconViewer

set_option maxRecDepth 1000000

/-! ## Memory lemmas -/

theorem readBytes_length (m : Mem) (off n : Nat) : (readBytes m off n).length = n := by
  simp [readBytes]

theorem readBytes_memcpy (dst src : Mem) (n k : Nat) (h : k ≤ n) :
    readBytes (memcpy dst src n) 0 k = readBytes src 0 k := by
  unfold readBytes memcpy
  apply List.map_congr_left
  intro i hi
  have hik : i < k := List.mem_range.mp hi
  have : i < n := by omega
  simp [this]

theorem readBytes_memOf (d : List Nat) (n : Nat) (h : n ≤ d.length) :
    readBytes (memOf d) 0 n = d.take n := by
  apply List.ext_getElem
  · simp [readBytes, h]
  · intro i h1 h2
    have hi : i < n := by simpa [readBytes] using h1
    have hd : i < d.length := by omega
    simp [readBytes, memOf, List.getD_eq_getElem?_getD, List.getElem?_eq_getElem hd]

/-- The receiver loop publishes every datagram of at least one byte, whatever its content. -/
theorem iter_publishes (s : State) (d : List Nat) (ok : Bool) (h : 0 < d.length) :
    (vicon_thread_iter s (some d) ok).last_pkt_len = min d.length VICON_MAX_PKT ∧
    readBytes (vicon_thread_iter s (some d) ok).last_pkt_buf 0 (min d.length VICON_MAX_PKT)
      = d.take VICON_MAX_PKT := by
  have hn : ¬ ((min d.length VICON_MAX_PKT : Nat) : Int) ≤ 0 := by
    have : 0 < min d.length VICON_MAX_PKT := by
      simp [VICON_MAX_PKT]; exact h
    omega
  have hcap : ¬ (min d.length VICON_MAX_PKT > VICON_MAX_PKT) := by
    simp [VICON_MAX_PKT]
  simp only [vicon_thread_iter, recvfrom, publish, hn, if_false, Int.toNat_ofNat, hcap]
  refine ⟨trivial, ?_⟩
  rw [readBytes_memcpy _ _ _ _ (le_refl _), readBytes_memcpy _ _ _ _ (le_refl _),
    readBytes_memOf _ _ (Nat.min_le_left _ _)]
  simp only [List.take_eq_take, Nat.min_assoc, Nat.min_self, Nat.min_comm]
  simp [Nat.min_comm, Nat.min_left_comm]

/-! ## The scan for the comma and the parser -/

theorem memchr_from_some {data : Mem} {c : Nat} : ∀ {k i j : Nat},
    memchr_from data c i k = some j →
    i ≤ j ∧ j < i + k ∧ data j = c ∧ ∀ m, i ≤ m → m < j → data m ≠ c := by
  intro k
  induction k with
  | zero => intro i j h; simp [memchr_from] at h
  | succ k ih =>
    intro i j h
    unfold memchr_from at h
    by_cases hc : data i = c
    · rw [if_pos hc] at h
      have hij : i = j := by simpa using h
      subst hij
      exact ⟨le_refl _, by omega, hc, fun m h1 h2 => by omega⟩
    · rw [if_neg hc] at h
      obtain ⟨h1, h2, h3, h4⟩ := ih h
      refine ⟨by omega, by omega, h3, ?_⟩
      intro m hm1 hm2
      by_cases hmi : m = i
      · rw [hmi]; exact hc
      · exact h4 m (by omega) hm2

theorem memchr_from_none {data : Mem} {c : Nat} : ∀ {k i : Nat},
    memchr_from data c i k = none → ∀ m, i ≤ m → m < i + k → data m ≠ c := by
  intro k
  induction k with
  | zero => intro i _ m h1 h2; omega
  | succ k ih =>
    intro i h m h1 h2
    unfold memchr_from at h
    by_cases hc : data i = c
    · rw [if_pos hc] at h; simp at h
    · rw [if_neg hc] at h
      by_cases hmi : m = i
      · rw [hmi]; exact hc
      · exact ih h m (by omega) (by omega)

theorem memchr_from_eq_some {data : Mem} {c : Nat} : ∀ {k i j : Nat},
    i ≤ j → j < i + k → data j = c → (∀ m, i ≤ m → m < j → data m ≠ c) →
    memchr_from data c i k = some j := by
  intro k
  induction k with
  | zero => intro i j h1 h2; omega
  | succ k ih =>
    intro i j h1 h2 h3 h4
    unfold memchr_from
    by_cases hc : data i = c
    · rw [if_pos hc]
      by_cases hij : i = j
      · rw [hij]
      · exact absurd hc (h4 i (le_refl _) (by omega))
    · rw [if_neg hc]
      have hij : i ≠ j := fun e => hc (e ▸ h3)
      exact ih (by omega) (by omega) h3 (fun m hm1 hm2 => h4 m (by omega) hm2)

theorem memchr_from_eq_none {data : Mem} {c : Nat} : ∀ {k i : Nat},
    (∀ m, i ≤ m → m < i + k → data m ≠ c) → memchr_from data c i k = none := by
  intro k
  induction k with
  | zero => intro i _; rfl
  | succ k ih =>
    intro i h
    unfold memchr_from
    rw [if_neg (h i (le_refl _) (by omega))]
    exact ih (fun m h1 h2 => h m (by omega) (by omega))

/-- Characterisation of `memchr`: the first offset below `n` holding `c`. -/
theorem memchr_eq_some_iff {data : Mem} {c n j : Nat} :
    memchr data c n = some j ↔ j < n ∧ data j = c ∧ ∀ m, m < j → data m ≠ c := by
  constructor
  · intro h
    obtain ⟨_, h2, h3, h4⟩ := memchr_from_some h
    exact ⟨by omega, h3, fun m hm => h4 m (Nat.zero_le _) hm⟩
  · rintro ⟨h1, h2, h3⟩
    exact memchr_from_eq_some (Nat.zero_le _) (by omega) h2 (fun m _ hm => h3 m hm)

theorem memchr_eq_none_iff {data : Mem} {c n : Nat} :
    memchr data c n = none ↔ ∀ m, m < n → data m ≠ c := by
  constructor
  · intro h m hm
    exact memchr_from_none h m (Nat.zero_le _) (by omega)
  · intro h
    exact memchr_from_eq_none (fun m _ hm => h m (by omega))

/-- The scan of `memchr` over `k` bytes from offset `i` reads offsets in `[i, i + k)` only. -/
theorem memchr_reads_bound {data : Mem} {c : Nat} : ∀ {k i x : Nat},
    x ∈ memchr_reads data c i k → i ≤ x ∧ x < i + k := by
  intro k
  induction k with
  | zero => intro i x h; simp [memchr_reads] at h
  | succ k ih =>
    intro i x h
    unfold memchr_reads at h
    by_cases hc : data i = c
    · rw [if_pos hc] at h
      have : x = i := by simpa using h
      omega
    · rw [if_neg hc] at h
      rcases List.mem_cons.mp h with h | h
      · omega
      · have := ih h
        omega

/-- In range, the conversion to `int` changes nothing. -/
theorem toInt32_of_small {x : Int} (h0 : 0 ≤ x) (h1 : x < 2147483648) : toInt32 x = x := by
  unfold toInt32
  omega

/-- What `csv_write_parsed_packet` prints for an open file, a successful `malloc`, a length
`n ≤ 2048` and a first comma at offset `comma`: nothing when fewer than 4 bytes follow the
clamped timestamp length, otherwise one row of `(n - (min comma 127 + 1)) / 4` values. -/
theorem csv_write_eq (data : Mem) (n comma : Nat) (hn : n ≤ VICON_MAX_PKT)
    (hc : memchr data 44 n = some comma) :
    csv_write_parsed_packet true data (n : Int) true =
      if n < min comma 127 + 5 then none else
      some ⟨(readBytes data 0 (min comma 127)).takeWhile (fun b => b != 0),
        (List.range ((n - (min comma 127 + 1)) / 4)).map
          fun i => readBytes data (comma + 1 + 4 * i) 4⟩ := by
  have hcn : comma < n := (memchr_eq_some_iff.mp hc).1
  have hts : (if comma ≥ 128 then 127 else comma) = min comma 127 := by
    split <;> omega
  have hpos : ¬ ((n : Int) ≤ 0) := by omega
  unfold VICON_MAX_PKT at hn
  simp only [csv_write_parsed_packet, Bool.not_true, Bool.false_or, decide_eq_true_eq, hpos,
    if_false, Int.toNat_ofNat, hc, hts]
  by_cases hlt : n < min comma 127 + 5
  · rw [if_pos hlt]
    by_cases h1 : (n : Int) - (((min comma 127 : Nat) : Int) + 1) ≤ 0
    · rw [if_pos h1]
    · rw [if_neg h1]
      have h2 : toInt32 (((n : Int) - (((min comma 127 : Nat) : Int) + 1)) / 4) ≤ 0 := by
        rw [toInt32_of_small (by omega) (by omega)]
        omega
      rw [if_pos h2]
  · rw [if_neg hlt]
    have h1 : ¬ ((n : Int) - (((min comma 127 : Nat) : Int) + 1) ≤ 0) := by omega
    have h3 : ((n : Int) - (((min comma 127 : Nat) : Int) + 1)) / 4
        = (((n - (min comma 127 + 1)) / 4 : Nat) : Int) := by omega
    have h2 : ¬ toInt32 (((n : Int) - (((min comma 127 : Nat) : Int) + 1)) / 4) ≤ 0 := by
      rw [toInt32_of_small (by omega) (by omega)]
      omega
    rw [if_neg h1, if_neg h2]
    rw [toInt32_of_small (by omega) (by omega), h3, Int.toNat_ofNat]
    rfl

/-! ## The parser on packets whose first comma is at offset 127 or less -/

/-- Without an open file or without memory from `malloc` nothing is printed. -/
theorem csv_write_flags (f m : Bool) (data : Mem) (len : Int) :
    csv_write_parsed_packet f data len m =
      if f && m then csv_write_parsed_packet true data len true else none := by
  cases f <;> cases m <;> simp [csv_write_parsed_packet]
  · split <;> simp

/-- A buffer without a comma in its first `len` bytes gives no row. -/
theorem csv_write_no_comma (f m : Bool) (data : Mem) (len : Int)
    (h : memchr data 44 len.toNat = none) : csv_write_parsed_packet f data len m = none := by
  simp [csv_write_parsed_packet, h]

/-- With the first comma at offset `comma ≤ 127`, the values printed are the
`floor(r / 4)` groups of 4 bytes after the comma, `r = n - comma - 1`, the timestamp is made of
the bytes before the comma, and nothing is printed when `r < 4`. -/
theorem csv_write_short_timestamp (data : Mem) (n comma : Nat) (hn : n ≤ VICON_MAX_PKT)
    (hc : memchr data 44 n = some comma) (hs : comma ≤ 127) :
    csv_write_parsed_packet true data (n : Int) true =
      if (n - comma - 1) / 4 = 0 then none else
      some ⟨(readBytes data 0 comma).takeWhile (fun b => b != 0),
        (List.range ((n - comma - 1) / 4)).map fun k => readBytes data (comma + 1 + 4 * k) 4⟩ := by
  have hmin : min comma 127 = comma := Nat.min_eq_left hs
  rw [csv_write_eq data n comma hn hc, hmin]
  have e : n - (comma + 1) = n - comma - 1 := by omega
  by_cases h : n < comma + 5
  · have h0 : (n - comma - 1) / 4 = 0 := by omega
    rw [if_pos h, if_pos h0]
  · have h0 : ¬ (n - comma - 1) / 4 = 0 := by omega
    rw [if_neg h, if_neg h0, e]

/-- A malformed packet whose first comma is at offset 127 or less gives no row. -/
theorem csv_write_malformed_short_timestamp (f m : Bool) (data : Mem) (n comma : Nat)
    (hn : n ≤ VICON_MAX_PKT) (hc : memchr data 44 n = some comma) (hs : comma ≤ 127)
    (hr : n - comma - 1 < 4) : csv_write_parsed_packet f data (n : Int) m = none := by
  rw [csv_write_flags]
  split
  · rw [csv_write_short_timestamp data n comma hn hc hs, if_pos (by omega)]
  · rfl

/-- With the first comma at offset 127 or less, or no comma, every offset read is below `len`
(for `len` up to 2048). -/
theorem csv_reads_short_timestamp_in_bounds (f m : Bool) (data : Mem) (n : Nat)
    (hn : n ≤ VICON_MAX_PKT)
    (hs : ∀ comma, memchr data 44 n = some comma → comma ≤ 127) :
    ∀ x ∈ csv_reads f data (n : Int) m, x < n := by
  intro x hx
  unfold VICON_MAX_PKT at hn
  unfold csv_reads at hx
  split at hx
  · simp at hx
  · rw [Int.toNat_ofNat] at hx
    split at hx
    · exact (memchr_reads_bound hx).2.trans_eq (Nat.zero_add n)
    · rename_i comma hc
      have hcn : comma < n := (memchr_eq_some_iff.mp hc).1
      have hc127 := hs comma hc
      have hts : (if comma ≥ 128 then 127 else comma) = comma := by
        split <;> omega
      simp only [hts] at hx
      have hr0 : ∀ y ∈ memchr_reads data 44 0 n ++ List.range comma, y < n := by
        intro y hy
        rcases List.mem_append.mp hy with h | h
        · exact (memchr_reads_bound h).2.trans_eq (Nat.zero_add n)
        · have := List.mem_range.mp h
          omega
      split at hx
      · exact hr0 x hx
      · rename_i hfl
        rw [toInt32_of_small (by omega) (by omega)] at hx
        split at hx
        · exact hr0 x hx
        · split at hx
          · exact hr0 x hx
          · rcases List.mem_append.mp hx with h | h
            · exact hr0 x h
            · obtain ⟨i, hi, rfl⟩ := List.mem_map.mp h
              have hi2 := List.mem_range.mp hi
              have : (((n : Int) - ((comma : Int) + 1)) / 4).toNat * 4 ≤ n - (comma + 1) := by
                omega
              omega

/-! ## Packets in buffers -/

theorem getD_ne_of_lt_indexOf (a : Nat) : ∀ (l : List Nat) (m : Nat),
    m < l.indexOf a → l.getD m 0 ≠ a := by
  intro l
  induction l with
  | nil => intro m h; simp at h
  | cons b l ih =>
    intro m h
    by_cases hb : b = a
    · rw [List.indexOf_cons_eq l hb] at h
      omega
    · rw [List.indexOf_cons_ne l hb] at h
      cases m with
      | zero => simpa using hb
      | succ m =>
        have := ih m (by omega)
        simpa using this

theorem getD_indexOf (a : Nat) (l : List Nat) (h : a ∈ l) : l.getD (l.indexOf a) 0 = a := by
  have hlt : l.indexOf a < l.length := List.indexOf_lt_length.mpr h
  rw [List.getD_eq_getElem _ _ hlt]
  exact List.getElem_indexOf hlt

/-- In a buffer holding the packet `d`, `memchr` over `d.length` bytes finds the first comma
of `d`. -/
theorem memchr_of_holds (data : Mem) (d : List Nat) (h : holds data d) (hc : 44 ∈ d) :
    memchr data 44 d.length = some (d.indexOf 44) := by
  have hlt : d.indexOf 44 < d.length := List.indexOf_lt_length.mpr hc
  rw [memchr_eq_some_iff]
  refine ⟨hlt, ?_, ?_⟩
  · rw [h _ hlt]; exact getD_indexOf 44 d hc
  · intro m hm
    rw [h m (by omega)]
    exact getD_ne_of_lt_indexOf 44 d m hm

theorem memchr_of_holds_none (data : Mem) (d : List Nat) (h : holds data d) (hc : 44 ∉ d) :
    memchr data 44 d.length = none := by
  rw [memchr_eq_none_iff]
  intro m hm e
  apply hc
  rw [h m hm] at e
  rw [← e, List.getD_eq_getElem _ _ hm]
  exact List.getElem_mem _

theorem holds_memOf (d : List Nat) : holds (memOf d) d := fun _ _ => rfl

theorem holds_memcpy (dst src : Mem) (d : List Nat) (h : holds src d) :
    holds (memcpy dst src d.length) d := by
  intro i hi
  simp [memcpy, hi, h i hi]

theorem readBytes_of_holds (data : Mem) (d : List Nat) (h : holds data d) (off k : Nat)
    (hk : off + k ≤ d.length) : readBytes data off k = readBytes (memOf d) off k := by
  unfold readBytes
  apply List.map_congr_left
  intro i hi
  have := List.mem_range.mp hi
  exact h (off + i) (by omega)

/-- A valid packet of at most 2048 bytes sitting in a buffer gives a row, whatever follows it
in the buffer. -/
theorem csv_write_valid_isSome (data : Mem) (d : List Nat) (h : holds data d)
    (hv : valid_packet d) (hn : d.length ≤ VICON_MAX_PKT) :
    ∃ r, csv_write_parsed_packet true data (d.length : Int) true = some r := by
  have hc := memchr_of_holds data d h hv.1
  have hge : ¬ d.length < min (d.indexOf 44) 127 + 5 := by
    have := hv.2
    omega
  rw [csv_write_eq data d.length _ hn hc, if_neg hge]
  exact ⟨_, rfl⟩

/-- With a timestamp field of at most 127 bytes, what is printed for a packet sitting in a
buffer depends on the bytes of the packet only: it is `render d`. -/
theorem csv_write_of_holds (data : Mem) (d : List Nat) (h : holds data d)
    (hn : d.length ≤ VICON_MAX_PKT) (hs : short_timestamp d) :
    csv_write_parsed_packet true data (d.length : Int) true = render d := by
  unfold render
  by_cases hc : 44 ∈ d
  · have h127 : d.indexOf 44 ≤ 127 := hs.resolve_left (fun h => h hc)
    have hlt : d.indexOf 44 < d.length := List.indexOf_lt_length.mpr hc
    rw [csv_write_short_timestamp data _ _ hn (memchr_of_holds data d h hc) h127,
      csv_write_short_timestamp (memOf d) _ _ hn (memchr_of_holds _ d (holds_memOf d) hc) h127]
    split
    · rfl
    · rw [readBytes_of_holds data d h 0 _ (by omega)]
      congr 2
      apply List.map_congr_left
      intro k hk
      have hk2 := List.mem_range.mp hk
      exact readBytes_of_holds data d h _ 4 (by omega)
  · rw [csv_write_no_comma _ _ data _ (by
        rw [Int.toNat_ofNat]; exact memchr_of_holds_none data d h hc),
      csv_write_no_comma _ _ (memOf d) _ (by
        rw [Int.toNat_ofNat]; exact memchr_of_holds_none _ d (holds_memOf d) hc)]

/-! ## Timestamp text -/

/-- C6 (amended): for every packet of at most 2048 bytes with a comma and at least 4 bytes
after its first comma, `csv_write_parsed_packet` (open file, successful `malloc`) prints a row
with at least one value whose timestamp text is the bytes before the first comma, truncated to
127 bytes when there are more, and ending before the first zero byte among them if there is
one. An over-long timestamp field is no error: the row is printed all the same. -/
theorem timestamp_text_of_row (data : Mem) (len : Int) (comma : Nat)
    (hlen : len ≤ (VICON_MAX_PKT : Int))
    (hc : memchr data 44 len.toNat = some comma)
    (hr : (comma : Int) + 1 + 4 ≤ len) :
    ∃ coords, coords ≠ [] ∧
      csv_write_parsed_packet true data len true =
        some ⟨(readBytes data 0 (min comma 127)).takeWhile (fun b => b != 0), coords⟩ := by
  obtain ⟨n, rfl⟩ : ∃ n : Nat, len = (n : Int) := ⟨len.toNat, by omega⟩
  rw [Int.toNat_ofNat] at hc
  have hn : n ≤ VICON_MAX_PKT := by exact_mod_cast hlen
  have hge : ¬ n < min comma 127 + 5 := by omega
  rw [csv_write_eq data n comma hn hc, if_neg hge]
  refine ⟨_, ?_, rfl⟩
  intro h
  have hl := congrArg List.length h
  simp only [List.length_map, List.length_range, List.length_nil] at hl
  omega

/-- C6 (witness): `pkt_long1`, whose timestamp field has 131 bytes. -/
theorem timestamp_text_of_row_witness :
    ((136 : Int) ≤ (VICON_MAX_PKT : Int) ∧
      memchr (memOf pkt_long1) 44 (136 : Int).toNat = some 131 ∧
      ((131 : Nat) : Int) + 1 + 4 ≤ 136) ∧
    ∃ coords, coords ≠ [] ∧
      csv_write_parsed_packet true (memOf pkt_long1) 136 true =
        some ⟨(readBytes (memOf pkt_long1) 0 (min 131 127)).takeWhile (fun b => b != 0),
          coords⟩ :=
  ⟨by decide, timestamp_text_of_row (memOf pkt_long1) 136 131 (by decide) (by decide)
    (by decide)⟩

/-! ## The mailbox -/

/-- C3 (amended): every datagram of at least one byte that the receiver loop receives,
malformed or not, is published: afterwards `last_pkt_len` is its length (at most 2048) and
`last_pkt_buf` starts with its bytes. -/
theorem received_packet_is_published (s : State) (d : List Nat) (ok : Bool) (h : d ≠ []) :
    (vicon_thread_iter s (some d) ok).last_pkt_len = min d.length VICON_MAX_PKT ∧
    readBytes (vicon_thread_iter s (some d) ok).last_pkt_buf 0 (min d.length VICON_MAX_PKT)
      = d.take VICON_MAX_PKT :=
  iter_publishes s d ok (List.length_pos.mpr h)

/-- C3 (witness): the packet `abc`, which has no comma. -/
theorem received_packet_is_published_witness :
    pkt_abc ≠ [] ∧
    ((vicon_thread_iter (init (memOf [])) (some pkt_abc) true).last_pkt_len
        = min pkt_abc.length VICON_MAX_PKT ∧
      readBytes (vicon_thread_iter (init (memOf [])) (some pkt_abc) true).last_pkt_buf 0
          (min pkt_abc.length VICON_MAX_PKT)
        = pkt_abc.take VICON_MAX_PKT) :=
  ⟨by decide, received_packet_is_published (init (memOf [])) pkt_abc true (by decide)⟩

/-- An empty datagram, or a failing `recvfrom`, leaves the mailbox and both logs as they are. -/
theorem empty_datagram_changes_nothing (s : State) (ok : Bool) :
    (vicon_thread_iter s (some []) ok).last_pkt_len = s.last_pkt_len ∧
    (vicon_thread_iter s (some []) ok).last_pkt_buf = s.last_pkt_buf ∧
    (vicon_thread_iter s (some []) ok).f100 = s.f100 ∧
    (vicon_thread_iter s (some []) ok).frame_csv = s.frame_csv ∧
    vicon_thread_iter s none ok = s := by
  simp [vicon_thread_iter, recvfrom]

/-- The snapshot of a mailbox holding `n` bytes, `0 < n ≤ 2048`, is these `n` bytes. -/
theorem snapshot_of_published (s : State) (copy_buf : Mem) (h0 : 0 < s.last_pkt_len)
    (h1 : s.last_pkt_len ≤ VICON_MAX_PKT) :
    (snapshot s copy_buf).1 = s.last_pkt_len ∧
    readBytes (snapshot s copy_buf).2 0 s.last_pkt_len
      = readBytes s.last_pkt_buf 0 s.last_pkt_len := by
  have h2 : ¬ s.last_pkt_len > VICON_MAX_PKT := by omega
  simp only [snapshot, h0, if_true, h2, if_false]
  exact ⟨trivial, readBytes_memcpy _ _ _ _ (le_refl _)⟩

/-- C7: from the initial state (nothing published), after the receiver loop received any
sequence of packets of 1 to 2048 bytes, the snapshot `(copy_len, copy_buf)` taken by the frame
callback is empty (`copy_len = 0`) when the sequence is empty, and otherwise `copy_len` is the
length of the last packet and the first `copy_len` bytes of `copy_buf` are exactly its bytes,
whatever the earlier packets and the initial content of `copy_buf` were. -/
theorem mailbox_snapshot_is_last_published (buf copy_buf : Mem) (ps : List (List Nat × Bool))
    (h : ∀ p ∈ ps, 1 ≤ p.1.length ∧ p.1.length ≤ VICON_MAX_PKT) :
    (ps = [] →
      (snapshot (run (init buf) (ps.map fun p => Event.packet p.1 p.2)) copy_buf).1 = 0) ∧
    (∀ p ∈ ps.getLast?,
      (snapshot (run (init buf) (ps.map fun p => Event.packet p.1 p.2)) copy_buf).1
        = p.1.length ∧
      readBytes (snapshot (run (init buf) (ps.map fun p => Event.packet p.1 p.2)) copy_buf).2 0
        (snapshot (run (init buf) (ps.map fun p => Event.packet p.1 p.2)) copy_buf).1 = p.1) := by
  constructor
  · intro hnil
    subst hnil
    simp [run, init, snapshot]
  · intro p hp
    rcases List.eq_nil_or_concat ps with hnil | ⟨qs, q, hq⟩
    · subst hnil; simp at hp
    · rw [List.concat_eq_append] at hq
      subst hq
      have hpq : p = q := by simpa using hp.symm
      subst hpq
      have hlen := h p (by simp)
      have hrun : run (init buf) ((qs ++ [p]).map fun p => Event.packet p.1 p.2)
          = vicon_thread_iter (run (init buf) (qs.map fun p => Event.packet p.1 p.2))
              (some p.1) p.2 := by
        simp [run, step]
      rw [hrun]
      obtain ⟨e1, e2⟩ := iter_publishes (run (init buf) (qs.map fun p => Event.packet p.1 p.2))
        p.1 p.2 (by omega)
      have hmin : min p.1.length VICON_MAX_PKT = p.1.length := Nat.min_eq_left hlen.2
      rw [hmin] at e1 e2
      obtain ⟨f1, f2⟩ := snapshot_of_published _ copy_buf (by rw [e1]; omega)
        (by rw [e1]; exact hlen.2)
      rw [e1] at f1 f2
      rw [f1, f2, e2]
      exact ⟨rfl, List.take_of_length_le hlen.2⟩

/-- C7 (witness): the 140-byte packet `pkt_q`, then a packet of 8 bytes. -/
theorem mailbox_snapshot_is_last_published_witness :
    (∀ p ∈ [(pkt_q, true), (pkt_nul, true)], 1 ≤ p.1.length ∧ p.1.length ≤ VICON_MAX_PKT) ∧
    (([(pkt_q, true), (pkt_nul, true)] = [] →
      (snapshot (run (init (memOf []))
        ([(pkt_q, true), (pkt_nul, true)].map fun p => Event.packet p.1 p.2)) (memOf [])).1
        = 0) ∧
    (∀ p ∈ [(pkt_q, true), (pkt_nul, true)].getLast?,
      (snapshot (run (init (memOf []))
        ([(pkt_q, true), (pkt_nul, true)].map fun p => Event.packet p.1 p.2)) (memOf [])).1
        = p.1.length ∧
      readBytes (snapshot (run (init (memOf []))
        ([(pkt_q, true), (pkt_nul, true)].map fun p => Event.packet p.1 p.2)) (memOf [])).2 0
        (snapshot (run (init (memOf []))
          ([(pkt_q, true), (pkt_nul, true)].map fun p => Event.packet p.1 p.2)) (memOf [])).1
        = p.1)) :=
  ⟨by decide, mailbox_snapshot_is_last_published (memOf []) (memOf [])
    [(pkt_q, true), (pkt_nul, true)] (by decide)⟩

/-- C8: when `last_pkt_len = 0` (no packet published yet), the frame callback leaves the
correlated log as it is, whatever `copy_buf` holds and whether or not `fopen` would succeed. -/
theorem cb_without_packet_writes_no_row (s : State) (copy_buf : Mem)
    (fopen_ok malloc_ok : Bool) (h : s.last_pkt_len = 0) :
    (cb s copy_buf fopen_ok malloc_ok).frame_csv = s.frame_csv := by
  simp [cb, snapshot, h]

/-- C8 (witness): a frame arriving in the initial state. -/
theorem cb_without_packet_writes_no_row_witness :
    (init (memOf [])).last_pkt_len = 0 ∧
    (cb (init (memOf [])) (memOf []) true true).frame_csv = (init (memOf [])).frame_csv :=
  ⟨rfl, cb_without_packet_writes_no_row (init (memOf [])) (memOf []) true true rfl⟩

/-! ## The receiver loop and the frame callback together -/

/-- One turn of the receiver loop on a datagram of 1 to 2048 bytes, field by field. -/
theorem iter_fields (s : State) (d : List Nat) (ok : Bool) (h0 : d ≠ [])
    (hn : d.length ≤ VICON_MAX_PKT) :
    (vicon_thread_iter s (some d) ok).buf = memcpy s.buf (memOf d) d.length ∧
    (vicon_thread_iter s (some d) ok).f100 = s.f100 ++
      (csv_write_parsed_packet true (memcpy s.buf (memOf d) d.length) (d.length : Int) ok).toList ∧
    (vicon_thread_iter s (some d) ok).last_pkt_len = d.length ∧
    (vicon_thread_iter s (some d) ok).last_pkt_buf
      = memcpy s.last_pkt_buf (memcpy s.buf (memOf d) d.length) d.length ∧
    (vicon_thread_iter s (some d) ok).frame_csv = s.frame_csv := by
  have hpos : 0 < d.length := List.length_pos.mpr h0
  have hmin : min d.length VICON_MAX_PKT = d.length := Nat.min_eq_left hn
  have h1 : ¬ ((d.length : Int) ≤ 0) := by omega
  have h2 : ¬ (d.length > VICON_MAX_PKT) := by omega
  simp only [vicon_thread_iter, recvfrom, publish, hmin, h1, if_false, Int.toNat_ofNat, h2]
  refine ⟨?_, ?_, ?_, ?_, ?_⟩ <;> first | rfl | trivial

/-- The frame callback, field by field: only the correlated log can change. -/
theorem cb_fields (s : State) (copy_buf : Mem) (fo mo : Bool) :
    (cb s copy_buf fo mo).buf = s.buf ∧ (cb s copy_buf fo mo).f100 = s.f100 ∧
    (cb s copy_buf fo mo).last_pkt_len = s.last_pkt_len ∧
    (cb s copy_buf fo mo).last_pkt_buf = s.last_pkt_buf := by
  unfold cb
  split
  split <;> [split; skip] <;> exact ⟨rfl, rfl, rfl, rfl⟩

/-- What the frame callback prints when the mailbox holds a packet `d` of 1 to 2048 bytes. -/
theorem cb_frame_csv (s : State) (copy_buf : Mem) (fo mo : Bool) (n : Nat)
    (hlen : s.last_pkt_len = n) (h0 : 0 < n) (hn : n ≤ VICON_MAX_PKT) :
    (cb s copy_buf fo mo).frame_csv = s.frame_csv ++
      (if fo then
        (csv_write_parsed_packet true (memcpy copy_buf s.last_pkt_buf n) (n : Int) mo).toList
      else []) := by
  have h2 : ¬ (n > VICON_MAX_PKT) := by omega
  simp only [cb, snapshot, hlen, h0, if_true, h2, if_false]
  cases fo <;> simp

/-- C1, count and order of the rows: from any state, after the receiver loop received the valid
packets `ps` (each of at most 2048 bytes, `malloc` succeeding), the full-rate log has gained
exactly one row per packet, in receipt order, the row of a packet being what
`csv_write_parsed_packet` prints for a buffer that starts with its bytes. -/
theorem full_rate_log_one_row_per_valid_packet (ps : List (List Nat))
    (h : ∀ p ∈ ps, valid_packet p ∧ p.length ≤ VICON_MAX_PKT) : ∀ (s : State),
    ∃ rows, (run s (ps.map fun p => Event.packet p true)).f100 = s.f100 ++ rows ∧
      List.Forall₂ (fun p r => ∃ data, holds data p ∧
        csv_write_parsed_packet true data (p.length : Int) true = some r) ps rows := by
  induction ps with
  | nil => intro s; exact ⟨[], by simp [run], List.Forall₂.nil⟩
  | cons p ps ih =>
    intro s
    obtain ⟨hv, hn⟩ := h p (List.mem_cons_self _ _)
    have hne : p ≠ [] := by
      intro e; rw [e] at hv; exact absurd hv.1 (by simp)
    obtain ⟨_, hf, _, _, _⟩ := iter_fields s p true hne hn
    have hh : holds (memcpy s.buf (memOf p) p.length) p := holds_memcpy _ _ p (holds_memOf p)
    obtain ⟨r, hr⟩ := csv_write_valid_isSome _ p hh hv hn
    obtain ⟨rows, hrows, hall⟩ := ih (fun q hq => h q (List.mem_cons_of_mem _ hq))
      (vicon_thread_iter s (some p) true)
    refine ⟨r :: rows, ?_, List.Forall₂.cons ⟨_, hh, hr⟩ hall⟩
    have hrun : run s ((p :: ps).map fun p => Event.packet p true)
        = run (vicon_thread_iter s (some p) true) (ps.map fun p => Event.packet p true) := by
      simp [run, step]
    rw [hrun, hrows, hf, hr]
    simp

/-- C9 for timestamp fields of at most 127 bytes: after a valid packet `p` was received,
`k` frames append `k` rows to the correlated log, each equal to the row that `p` got in the
full-rate log (`fopen` and `malloc` succeeding). -/
theorem stalled_rows_short_timestamp (s : State) (p : List Nat) (hv : valid_packet p)
    (hn : p.length ≤ VICON_MAX_PKT) (hs : short_timestamp p) (frames : List Mem) :
    ∃ r, (step s (.packet p true)).f100 = s.f100 ++ [r] ∧
      (run (step s (.packet p true)) (frames.map fun c => Event.frame c true true)).frame_csv
        = s.frame_csv ++ List.replicate frames.length r ∧
      (run (step s (.packet p true)) (frames.map fun c => Event.frame c true true)).f100
        = s.f100 ++ [r] := by
  have hne : p ≠ [] := by
    intro e; rw [e] at hv; exact absurd hv.1 (by simp)
  have hpos : 0 < p.length := List.length_pos.mpr hne
  obtain ⟨_, hf, hl, hb, hc⟩ := iter_fields s p true hne hn
  have hh : holds (memcpy s.buf (memOf p) p.length) p := holds_memcpy _ _ p (holds_memOf p)
  obtain ⟨r, hr⟩ := csv_write_valid_isSome _ p hh hv hn
  have hrender : render p = some r := by rw [← csv_write_of_holds _ p hh hn hs, hr]
  refine ⟨r, by simp [step, hf, hr], ?_⟩
  have key : ∀ (fs : List Mem) (t : State), t.last_pkt_len = p.length →
      holds t.last_pkt_buf p →
      (run t (fs.map fun c => Event.frame c true true)).frame_csv
        = t.frame_csv ++ List.replicate fs.length r ∧
      (run t (fs.map fun c => Event.frame c true true)).f100 = t.f100 := by
    intro fs
    induction fs with
    | nil => intro t _ _; simp [run]
    | cons c fs ih =>
      intro t ht1 ht2
      obtain ⟨_, g2, g3, g4⟩ := cb_fields t c true true
      have g5 := cb_frame_csv t c true true p.length ht1 hpos hn
      rw [if_pos rfl, csv_write_of_holds _ p (holds_memcpy _ _ p ht2) hn hs, hrender] at g5
      obtain ⟨i1, i2⟩ := ih (cb t c true true) (by rw [g3, ht1]) (by rw [g4]; exact ht2)
      have hrun : run t ((c :: fs).map fun c => Event.frame c true true)
          = run (cb t c true true) (fs.map fun c => Event.frame c true true) := by
        simp [run, step]
      rw [hrun, i1, i2, g5, g2]
      simp [List.replicate_succ]
  have hmail : holds (step s (.packet p true)).last_pkt_buf p := by
    show holds (vicon_thread_iter s (some p) true).last_pkt_buf p
    rw [hb]; exact holds_memcpy _ _ p hh
  obtain ⟨k1, k2⟩ := key frames (step s (.packet p true)) hl hmail
  rw [k1, k2]
  simp [step, hf, hr, hc]

/-- The rows the frame callback prints depend on the mailbox and the correlated log only. -/
theorem cb_frame_csv_congr (s t : State) (c : Mem) (fo mo : Bool)
    (h1 : t.last_pkt_len = s.last_pkt_len) (h2 : t.last_pkt_buf = s.last_pkt_buf)
    (h3 : t.frame_csv = s.frame_csv) :
    (cb t c fo mo).frame_csv = (cb s c fo mo).frame_csv := by
  simp only [cb, snapshot, h1, h2]
  split_ifs <;> simp [h3]

/-- Invariant behind the subsequence property: the full-rate log splits into `A ++ B` with the
correlated log a subsequence of `A`, and, when a packet was published since the last frame,
whatever a frame would print now is a subsequence of `B`. -/
theorem correlated_sublist_aux : ∀ (es : List Event) (s : State) (fresh : Bool)
    (A B : List Row),
    (∀ e ∈ es, ∀ d ok, e = Event.packet d ok →
      ok = true ∧ d.length ≤ VICON_MAX_PKT ∧ short_timestamp d) →
    frames_separated fresh es = true →
    s.f100 = A ++ B → List.Sublist s.frame_csv A →
    (fresh = true → ∀ c fo mo, ∃ X,
      (cb s c fo mo).frame_csv = s.frame_csv ++ X ∧ List.Sublist X B) →
    List.Sublist (run s es).frame_csv (run s es).f100 := by
  intro es
  induction es with
  | nil =>
    intro s fresh A B _ _ hf hsub _
    simp only [run, List.foldl_nil]
    rw [hf]
    exact hsub.trans (List.sublist_append_left A B)
  | cons e es ih =>
    intro s fresh A B hp hsep hf hsub hnext
    have hp2 : ∀ e ∈ es, ∀ d ok, e = Event.packet d ok →
        ok = true ∧ d.length ≤ VICON_MAX_PKT ∧ short_timestamp d :=
      fun e he => hp e (List.mem_cons_of_mem _ he)
    have hrun : run s (e :: es) = run (step s e) es := by simp [run]
    rw [hrun]
    cases e with
    | recv_fail =>
      have hs : step s Event.recv_fail = s := rfl
      rw [hs]
      exact ih s fresh A B hp2 (by simpa [frames_separated] using hsep) hf hsub hnext
    | packet d ok =>
      obtain ⟨hok, hn, hshort⟩ := hp (Event.packet d ok) (List.mem_cons_self _ _) d ok rfl
      subst hok
      by_cases hd : d = []
      · subst hd
        obtain ⟨e1, e2, e3, e4, _⟩ := empty_datagram_changes_nothing s true
        have hsep2 : frames_separated fresh es = true := by
          simpa [frames_separated] using hsep
        refine ih (step s (Event.packet [] true)) fresh A B hp2 hsep2 (e3.trans hf)
          (by show List.Sublist (vicon_thread_iter s (some []) true).frame_csv A
              rw [e4]; exact hsub) ?_
        intro hfr c fo mo
        obtain ⟨X, hX, hXB⟩ := hnext hfr c fo mo
        refine ⟨X, ?_, hXB⟩
        show (cb (vicon_thread_iter s (some []) true) c fo mo).frame_csv
          = (vicon_thread_iter s (some []) true).frame_csv ++ X
        rw [cb_frame_csv_congr s _ c fo mo e1 e2 e4, e4]
        exact hX
      · obtain ⟨_, g2, g3, g4, g5⟩ := iter_fields s d true hd hn
        have hpos : 0 < d.length := List.length_pos.mpr hd
        have hh : holds (memcpy s.buf (memOf d) d.length) d :=
          holds_memcpy _ _ d (holds_memOf d)
        rw [csv_write_of_holds _ d hh hn hshort] at g2
        have hempty : d.isEmpty = false := by
          cases d with
          | nil => exact absurd rfl hd
          | cons _ _ => rfl
        have hsep2 : frames_separated true es = true := by
          simpa [frames_separated, hempty] using hsep
        refine ih (step s (Event.packet d true)) true s.f100 (render d).toList hp2 hsep2 g2
          (by show List.Sublist (vicon_thread_iter s (some d) true).frame_csv s.f100
              rw [g5, hf]; exact hsub.trans (List.sublist_append_left A B)) ?_
        intro _ c fo mo
        have hc := cb_frame_csv (vicon_thread_iter s (some d) true) c fo mo d.length g3 hpos hn
        have hmail : holds (vicon_thread_iter s (some d) true).last_pkt_buf d := by
          rw [g4]; exact holds_memcpy _ _ d hh
        refine ⟨_, hc, ?_⟩
        cases fo
        · simp
        · cases mo
          · rw [if_pos rfl, csv_write_flags]
            simp
          · rw [if_pos rfl, csv_write_of_holds _ d (holds_memcpy _ _ d hmail) hn hshort]
    | frame c fo mo =>
      have hsep1 : fresh = true ∧ frames_separated false es = true := by
        simpa [frames_separated] using hsep
      obtain ⟨X, hX, hXB⟩ := hnext hsep1.1 c fo mo
      obtain ⟨_, g2, _, _⟩ := cb_fields s c fo mo
      refine ih (step s (Event.frame c fo mo)) false (A ++ B) [] hp2 hsep1.2
        (by show (cb s c fo mo).f100 = A ++ B ++ []
            rw [g2, hf, List.append_nil])
        (by show List.Sublist (cb s c fo mo).frame_csv (A ++ B)
            rw [hX]; exact List.Sublist.append hsub hXB) ?_
      intro h
      exact absurd h (by simp)

/-- C10 for timestamp fields of at most 127 bytes: from the initial state, for every
interleaving of receiver turns and frames in which a non-empty datagram is received between
any two consecutive frames, all datagrams having at most 2048 bytes and a timestamp field of at
most 127 bytes (`malloc` succeeding in the receiver), the rows of the correlated log are a
subsequence of the rows of the full-rate log. -/
theorem correlated_sublist_short_timestamp (buf : Mem) (es : List Event)
    (hp : ∀ e ∈ es, ∀ d ok, e = Event.packet d ok →
      ok = true ∧ d.length ≤ VICON_MAX_PKT ∧ short_timestamp d)
    (hsep : frames_separated true es = true) :
    List.Sublist (run (init buf) es).frame_csv (run (init buf) es).f100 := by
  refine correlated_sublist_aux es (init buf) true [] [] hp hsep rfl (List.Sublist.refl _) ?_
  intro _ c fo mo
  exact ⟨[], by simp [cb, snapshot, init], List.Sublist.refl _⟩

/-! ## The parser on packets whose timestamp field is longer than 127 bytes -/

/-- C1 (evaluation at the failing input): the datagram `pkt_long6` is valid and has a payload
of exactly 24 bytes (six floats) after its first comma, and the row the receiver loop prints
for it in the full-rate log has seven values, not six: `float_len` is `156 - 128 = 28`. -/
theorem six_float_packet_row_has_seven_values :
    valid_packet pkt_long6 ∧ pkt_long6.length = 156 ∧ payload_len pkt_long6 = 24 ∧
    (run (init (memOf [])) [.packet pkt_long6 true]).f100.map (fun r => r.coords.length)
      = [7] := by
  decide

/-- C2 (evaluation at the failing input): `pkt_long0` has its first comma at offset 131 and no
byte after it, so it is malformed; yet `csv_write_parsed_packet` prints a row for it, with one
value taken from offsets 132..135 (here zero bytes), and both logs gain a row. -/
theorem malformed_long_timestamp_packet_is_written :
    pkt_long0.length = 132 ∧ memchr (memOf pkt_long0) 44 132 = some 131 ∧
    ¬ valid_packet pkt_long0 ∧
    csv_write_parsed_packet true (memOf pkt_long0) 132 true
      = some ⟨List.replicate 127 65, [[0, 0, 0, 0]]⟩ ∧
    (run (init (memOf [])) [.packet pkt_long0 true, .frame (memOf []) true true]).f100.length
      = 1 ∧
    (run (init (memOf [])) [.packet pkt_long0 true, .frame (memOf []) true true]).frame_csv.length
      = 1 := by
  decide

/-- C4 (evaluation at the failing input): `pkt_long1` has its first comma at offset 131 and
`r = 136 - 131 - 1 = 4` bytes after it, so `floor(r / 4) = 1`; the row has two values, the
second one made of the bytes at offsets 136..139, which are not in the packet. -/
theorem long_timestamp_sample_count :
    pkt_long1.length = 136 ∧ memchr (memOf pkt_long1) 44 136 = some 131 ∧
    (136 - 131 - 1) / 4 = 1 ∧
    (csv_write_parsed_packet true (memOf pkt_long1) 136 true).map (fun r => r.coords)
      = some [[0, 0, 128, 63], [0, 0, 0, 0]] := by
  decide

/-- C5 (evaluation at the failing input): with `len = 132` and the bytes of `pkt_long0`, the
offsets read that are not below `len` are 132, 133, 134, 135; and on an array of 2048 bytes
with its comma at offset 2043 and `len = 2048`, offset 3963 is read. -/
theorem long_timestamp_reads_past_len :
    (csv_reads true (memOf pkt_long0) 132 true).filter (fun i => decide (132 ≤ i))
      = [132, 133, 134, 135] ∧
    3963 ∈ csv_reads true mem_full 2048 true := by
  decide

/-- C6 (counterexample): in `pkt_nul` the bytes before the first comma are `a`, 0, `b`, three
bytes, fewer than 127, but the timestamp text of the row is `a` alone. -/
theorem timestamp_with_zero_byte_is_cut :
    memchr (memOf pkt_nul) 44 8 = some 3 ∧
    readBytes (memOf pkt_nul) 0 3 = [97, 0, 98] ∧
    (csv_write_parsed_packet true (memOf pkt_nul) 8 true).map (fun r => r.timestamp)
      = some [97] ∧
    (csv_write_parsed_packet true (memOf pkt_nul) 8 true).map (fun r => r.timestamp)
      ≠ some (readBytes (memOf pkt_nul) 0 3) := by
  decide

/-- C3 (counterexample): `pkt_abc` has no comma; after the receiver loop handled it, the
mailbox holds it: `last_pkt_len` went from 0 to 3 and `last_pkt_buf` starts with its bytes. -/
theorem malformed_packet_is_published :
    ¬ valid_packet pkt_abc ∧ 44 ∉ pkt_abc ∧
    (init (memOf [])).last_pkt_len = 0 ∧
    (vicon_thread_iter (init (memOf [])) (some pkt_abc) true).last_pkt_len = 3 ∧
    readBytes (vicon_thread_iter (init (memOf [])) (some pkt_abc) true).last_pkt_buf 0 3
      = pkt_abc ∧
    (vicon_thread_iter (init (memOf [])) (some pkt_abc) true).last_pkt_len
      ≠ (init (memOf [])).last_pkt_len := by
  decide

/-- C9 (evaluation at the failing input): after the packets `pkt_q` and `pkt_long1`, the row of
`pkt_long1` in the full-rate log has as second value bytes 136..139 of `buf`, left there by
`pkt_q` (a float 2.0); a frame arriving then prints a row whose second value comes from
`copy_buf` (here zero bytes). The correlated row differs from the full-rate row. -/
theorem stalled_packet_rows_differ :
    valid_packet pkt_long1 ∧
    (run (init (memOf [])) [.packet pkt_q true, .packet pkt_long1 true]).f100.getLast?
      = some ⟨List.replicate 127 65, [[0, 0, 128, 63], [0, 0, 0, 64]]⟩ ∧
    (run (init (memOf []))
        [.packet pkt_q true, .packet pkt_long1 true, .frame (memOf []) true true]).frame_csv
      = [⟨List.replicate 127 65, [[0, 0, 128, 63], [0, 0, 0, 0]]⟩] := by
  decide

/-- C10 (evaluation at the failing input): packet `pkt_q`, a frame, packet `pkt_long1`, a frame.
A packet is published between the two frames, and the second correlated row is not a row of
the full-rate log, so the correlated log is not a subsequence of the full-rate log. -/
theorem correlated_row_not_in_full_rate_log :
    (∃ r ∈ (run (init (memOf [])) [.packet pkt_q true, .frame (memOf []) true true,
        .packet pkt_long1 true, .frame (memOf []) true true]).frame_csv,
      r ∉ (run (init (memOf [])) [.packet pkt_q true, .frame (memOf []) true true,
        .packet pkt_long1 true, .frame (memOf []) true true]).f100) ∧
    ¬ List.Sublist
      (run (init (memOf [])) [.packet pkt_q true, .frame (memOf []) true true,
        .packet pkt_long1 true, .frame (memOf []) true true]).frame_csv
      (run (init (memOf [])) [.packet pkt_q true, .frame (memOf []) true true,
        .packet pkt_long1 true, .frame (memOf []) true true]).f100 := by
  decide

end ViconViewer

namespace ViconViewer

/-! ## The exit status of main and the start of the telemetry thread -/

/-- While `vicon_run` stays set, the receiver loop handles every turn offered to it, whatever
the datagrams hold: no datagram makes it leave the loop. -/
theorem vicon_loop_handles_all (turns : List Turn)
    (h : ∀ t ∈ turns, t.run_at_test = true ∧ t.run_after_recv = true) : ∀ (s : State),
    vicon_loop s turns = run s (turns.map Turn.event) := by
  induction turns with
  | nil => intro s; rfl
  | cons t ts ih =>
    intro s
    obtain ⟨h1, h2⟩ := h t (List.mem_cons_self _ _)
    have ih2 := ih (fun u hu => h u (List.mem_cons_of_mem _ hu))
    have hstep : step s t.event = vicon_thread_iter s t.recv t.malloc_ok := by
      unfold Turn.event
      cases t.recv <;> rfl
    have hrun : run s ((t :: ts).map Turn.event) = run (step s t.event) (ts.map Turn.event) := by
      simp [run]
    rw [hrun, hstep, ← ih2]
    simp only [vicon_loop, h1, h2, Bool.not_true, Bool.false_eq_true, if_false, ite_self]

/-- The value `main` returns when an initialisation step before the streaming fails: -1, a
non-zero exit status (255). For the device search and the device open this is without the
`-l` option, which ends `main` with 0 before them. -/
theorem main_init_failure_status (e : MainEnv)
    (h : e.gst_src_init_ok = false ∨ e.uvc_init_ok = false ∨ e.socket_ok = false ∨
      e.bind_ok = false ∨
      (e.list_option = false ∧
        (e.find_device_ok = false ∨ e.uvc_open_ok = false ∨ e.pthread_create_ok = false))) :
    main e = ⟨some (-1), false, false⟩ ∧ exit_status (-1) ≠ 0 := by
  refine ⟨?_, by decide⟩
  cases h1 : e.gst_src_init_ok
  · simp [main, h1]
  cases h2 : e.uvc_init_ok
  · simp [main, h1, h2]
  cases h3 : e.socket_ok
  · simp [main, h1, h2, h3]
  cases h4 : e.bind_ok
  · simp [main, h1, h2, h3, h4]
  cases h5 : e.list_option
  · cases h6 : e.find_device_ok
    · simp [main, h1, h2, h3, h4, h5, h6]
    cases h7 : e.uvc_open_ok
    · simp [main, h1, h2, h3, h4, h5, h6, h7]
    cases h8 : e.pthread_create_ok
    · simp [main, h1, h2, h3, h4, h5, h6, h7, h8]
    simp [h1, h2, h3, h4, h6, h7, h8] at h
  · simp [h1, h2, h3, h4, h5] at h

/-- A run in which every initialisation step succeeds and the wait for the end of stream comes
to an end returns 0, after the streaming. -/
theorem main_normal_run_status (e : MainEnv)
    (h : e.gst_src_init_ok = true ∧ e.uvc_init_ok = true ∧ e.socket_ok = true ∧
      e.bind_ok = true ∧ e.list_option = false ∧ e.find_device_ok = true ∧
      e.uvc_open_ok = true ∧ e.pthread_create_ok = true ∧ e.start_streaming_ok = true ∧
      e.eos_wait_returns = true) :
    (main e).status = some 0 ∧ (main e).streamed = true := by
  obtain ⟨h1, h2, h3, h4, h5, h6, h7, h8, h9, h10⟩ := h
  simp [main, h1, h2, h3, h4, h5, h6, h7, h8, h9, h10]

/-- The outcome of the `fopen` in the telemetry thread has no part in what `main` returns or
in whether it streams. -/
theorem main_without_f100 (e : MainEnv) :
    (main { e with f100_fopen_ok := false }).status = (main e).status ∧
    (main { e with f100_fopen_ok := false }).streamed = (main e).streamed := by
  cases h1 : e.gst_src_init_ok
  · simp [main, h1]
  cases h2 : e.uvc_init_ok
  · simp [main, h1, h2]
  cases h3 : e.socket_ok
  · simp [main, h1, h2, h3]
  cases h4 : e.bind_ok
  · simp [main, h1, h2, h3, h4]
  cases h5 : e.list_option
  swap
  · simp [main, h1, h2, h3, h4, h5]
  cases h6 : e.find_device_ok
  · simp [main, h1, h2, h3, h4, h5, h6]
  cases h7 : e.uvc_open_ok
  · simp [main, h1, h2, h3, h4, h5, h6, h7]
  cases h8 : e.pthread_create_ok
  · simp [main, h1, h2, h3, h4, h5, h6, h7, h8]
  cases h9 : e.start_streaming_ok
  · simp [main, h1, h2, h3, h4, h5, h6, h7, h8, h9]
  cases h10 : e.eos_wait_returns <;> simp [main, h1, h2, h3, h4, h5, h6, h7, h8, h9, h10]

/-- C11 (evaluation at the failing input): when every call succeeds except
`uvc_start_streaming`, `main` returns 0 without having streamed; and when only
`thetauvc_get_stream_ctrl_format_size` fails, `main` streams and returns 0 all the same. -/
theorem start_streaming_failure_exits_zero :
    main { env_ok with start_streaming_ok := false } = ⟨some 0, false, true⟩ ∧
    main { env_ok with stream_ctrl_ok := false } = ⟨some 0, true, true⟩ ∧
    exit_status 0 = 0 := by
  decide

/-- C12 (counterexample): every call succeeds except the `fopen` of the full-rate log in the
telemetry thread; `main` streams and records video and returns 0, and the receiver loop
never ran. -/
theorem f100_open_failure_run_exits_zero :
    main { env_ok with f100_fopen_ok := false } = ⟨some 0, true, false⟩ ∧
    exit_status 0 = 0 := by
  decide

/-- C12 (amended): when the full-rate log cannot be opened, the telemetry thread returns at
once, leaving logs and mailbox as they are, and this changes neither the value `main` returns
nor whether video is streamed and recorded; and when the log is open, as long as `vicon_run`
stays set the receiver loop handles every datagram offered to it, malformed or not. -/
theorem f100_open_failure_is_not_fatal (e : MainEnv) (s : State) (turns : List Turn)
    (h : ∀ t ∈ turns, t.run_at_test = true ∧ t.run_after_recv = true) :
    ((main { e with f100_fopen_ok := false }).status = (main e).status ∧
      (main { e with f100_fopen_ok := false }).streamed = (main e).streamed) ∧
    vicon_thread_fn false s turns = s ∧
    vicon_thread_fn true s turns = run s (turns.map Turn.event) := by
  refine ⟨main_without_f100 e, rfl, ?_⟩
  · simp only [vicon_thread_fn, Bool.not_true, Bool.false_eq_true, if_false]
    exact vicon_loop_handles_all turns h s

/-- C12 (witness): a run where everything else succeeds, and two turns of the receiver loop,
the first with the packet `abc` that has no comma. -/
theorem f100_open_failure_is_not_fatal_witness :
    (∀ t ∈ [Turn.mk true (some pkt_abc) true true, Turn.mk true (some pkt_nul) true true],
      t.run_at_test = true ∧ t.run_after_recv = true) ∧
    (((main { env_ok with f100_fopen_ok := false }).status = (main env_ok).status ∧
      (main { env_ok with f100_fopen_ok := false }).streamed = (main env_ok).streamed) ∧
    vicon_thread_fn false (init (memOf []))
      [Turn.mk true (some pkt_abc) true true, Turn.mk true (some pkt_nul) true true]
      = init (memOf []) ∧
    vicon_thread_fn true (init (memOf []))
      [Turn.mk true (some pkt_abc) true true, Turn.mk true (some pkt_nul) true true]
      = run (init (memOf []))
        ([Turn.mk true (some pkt_abc) true true, Turn.mk true (some pkt_nul) true true].map
          Turn.event)) :=
  ⟨by decide, f100_open_failure_is_not_fatal env_ok (init (memOf []))
    [Turn.mk true (some pkt_abc) true true, Turn.mk true (some pkt_nul) true true]
    (by decide)⟩

end ViconViewer

namespace ViconViewer

/-! ## The two threads and the mutex -/

theorem readBytes_congr (a b : Mem) (n : Nat) (h : ∀ j, j < n → a j = b j) :
    readBytes a 0 n = readBytes b 0 n := by
  unfold readBytes
  apply List.map_congr_left
  intro i hi
  have := List.mem_range.mp hi
  simpa using h i this

theorem conc_inv_step (c : Conc) (m : Move) (h : conc_inv c) : conc_inv (cstep c m) := by
  obtain ⟨h1, h2, h3, h4, h5⟩ := h
  cases m with
  | receiver d =>
    cases hr : c.rpc with
    | recv =>
      rw [hr] at h1 h4
      cases hc : c.cpc <;> rw [hc] at h2 h5 <;>
        simp only [cstep, hr, recvfrom] <;> split <;>
        simp_all [conc_inv, RecvPc.inside, CbPc.inside, mailbox_whole, snapshot_whole,
          VICON_MAX_PKT, List.length_pos, readBytes_length] <;> omega
    | lock n =>
      rw [hr] at h1 h4
      have hn : 0 < n := h4.2
      have hcap : (0 < if n > VICON_MAX_PKT then VICON_MAX_PKT else n) ∧
          (if n > VICON_MAX_PKT then VICON_MAX_PKT else n) ≤ VICON_MAX_PKT := by
        unfold VICON_MAX_PKT
        split <;> omega
      cases hc : c.cpc <;> rw [hc] at h2 h5 <;>
        simp only [cstep, hr] <;> split <;>
        simp_all [conc_inv, RecvPc.inside, CbPc.inside, mailbox_whole, snapshot_whole,
          readBytes_length] <;> omega
    | copy n i =>
      rw [hr] at h1 h4
      obtain ⟨hn0, hn1, hin, hj⟩ := h4
      have hnext : i < n → ∀ j, j < i + 1 →
          setByte c.last_pkt_buf i (c.buf i) j = c.buf j := by
        intro _ j hj2
        unfold setByte
        split
        · rename_i e; rw [e]
        · exact hj j (by omega)
      have hdone : ¬ i < n → ∀ j, j < n → c.last_pkt_buf j = c.buf j :=
        fun hlt j hj2 => hj j (by omega)
      cases hc : c.cpc <;> rw [hc] at h2 h5 <;>
        simp only [cstep, hr] <;> split <;>
        simp_all [conc_inv, RecvPc.inside, CbPc.inside, mailbox_whole, snapshot_whole,
          readBytes_length] <;> omega
    | setlen n =>
      rw [hr] at h1 h4
      have hb := readBytes_congr _ _ n h4.2.2
      cases hc : c.cpc <;> rw [hc] at h2 h5 <;>
        simp only [cstep, hr] <;>
        simp_all [conc_inv, RecvPc.inside, CbPc.inside, mailbox_whole, snapshot_whole,
          readBytes_length] <;> tauto
    | unlock =>
      rw [hr] at h1 h4
      cases hc : c.cpc <;> rw [hc] at h2 h5 <;>
        simp only [cstep, hr] <;>
        simp_all [conc_inv, RecvPc.inside, CbPc.inside, mailbox_whole, snapshot_whole,
          readBytes_length]
  | callback junk =>
    cases hc : c.cpc with
    | idle =>
      rw [hc] at h2 h5
      cases hr : c.rpc <;> rw [hr] at h1 h4 <;>
        simp only [cstep, hc] <;>
        simp_all [conc_inv, RecvPc.inside, CbPc.inside, mailbox_whole, snapshot_whole,
          readBytes_length]
    | lock =>
      rw [hc] at h2 h5
      cases hr : c.rpc <;> rw [hr] at h1 h4 <;>
        simp only [cstep, hc] <;> split <;>
        simp_all [conc_inv, RecvPc.inside, CbPc.inside, mailbox_whole, snapshot_whole,
          readBytes_length]
    | test =>
      rw [hc] at h2 h5
      have hcap : (if c.last_pkt_len > VICON_MAX_PKT then VICON_MAX_PKT else c.last_pkt_len)
          = c.last_pkt_len := by
        split <;> omega
      cases hr : c.rpc <;> rw [hr] at h1 h4 <;>
        simp only [cstep, hc, hcap] <;> split <;>
        simp_all [conc_inv, RecvPc.inside, CbPc.inside, mailbox_whole, snapshot_whole,
          readBytes_length]
    | copy i =>
      rw [hc] at h2 h5
      obtain ⟨hlen, hin, hj⟩ := h5
      have hnext : i < c.copy_len → ∀ j, j < i + 1 →
          setByte c.copy_buf i (c.last_pkt_buf i) j = c.last_pkt_buf j := by
        intro _ j hj2
        unfold setByte
        split
        · rename_i e; rw [e]
        · exact hj j (by omega)
      have hdone : ¬ i < c.copy_len →
          readBytes c.copy_buf 0 c.copy_len = readBytes c.last_pkt_buf 0 c.copy_len :=
        fun hlt => readBytes_congr _ _ _ (fun j hj2 => hj j (by omega))
      cases hr : c.rpc <;> rw [hr] at h1 h4 <;>
        simp only [cstep, hc] <;> split <;>
        simp_all [conc_inv, RecvPc.inside, CbPc.inside, mailbox_whole, snapshot_whole,
          readBytes_length] <;> omega 
    | unlock =>
      rw [hc] at h2 h5
      cases hr : c.rpc <;> rw [hr] at h1 h4 <;>
        simp only [cstep, hc] <;>
        simp_all [conc_inv, RecvPc.inside, CbPc.inside, mailbox_whole, snapshot_whole,
          readBytes_length]

theorem conc_inv_cinit (buf copy_buf : Mem) : conc_inv (cinit buf copy_buf) := by
  simp [conc_inv, cinit, RecvPc.inside, CbPc.inside, mailbox_whole, snapshot_whole]

theorem crun_append (c : Conc) (ms : List Move) (m : Move) :
    crun c (ms ++ [m]) = cstep (crun c ms) m := by
  simp [crun]

theorem conc_inv_crun (ms : List Move) : ∀ (c : Conc), conc_inv c → conc_inv (crun c ms) := by
  induction ms with
  | nil => intro c h; exact h
  | cons m ms ih => intro c h; exact ih (cstep c m) (conc_inv_step c m h)

/-- The packet `p` is one of the datagrams received in the schedule `ms`, cut at 2048 bytes. -/
theorem published_from_datagrams (buf copy_buf : Mem) (ms : List Move) :
    (∀ p ∈ (crun (cinit buf copy_buf) ms).published,
      ∃ d, Move.receiver d ∈ ms ∧ d ≠ [] ∧ p = d.take VICON_MAX_PKT) ∧
    (match (crun (cinit buf copy_buf) ms).rpc with
      | .recv => True
      | .unlock => True
      | .lock n => n ≤ VICON_MAX_PKT ∧ ∃ d, Move.receiver d ∈ ms ∧ d ≠ [] ∧
          readBytes (crun (cinit buf copy_buf) ms).buf 0 n = d.take VICON_MAX_PKT
      | .copy n _ => ∃ d, Move.receiver d ∈ ms ∧ d ≠ [] ∧
          readBytes (crun (cinit buf copy_buf) ms).buf 0 n = d.take VICON_MAX_PKT
      | .setlen n => ∃ d, Move.receiver d ∈ ms ∧ d ≠ [] ∧
          readBytes (crun (cinit buf copy_buf) ms).buf 0 n = d.take VICON_MAX_PKT) := by
  induction ms using List.reverseRecOn with
  | nil => simp [crun, cinit]
  | append_singleton ms m ih =>
    rw [crun_append]
    obtain ⟨ih1, ih2⟩ := ih
    have mono : ∀ {P : List Nat → Prop}, (∃ d, Move.receiver d ∈ ms ∧ P d) →
        ∃ d, Move.receiver d ∈ ms ++ [m] ∧ P d := by
      rintro P ⟨d, hd, hP⟩
      exact ⟨d, List.mem_append_left _ hd, hP⟩
    have ih1' : ∀ p ∈ (crun (cinit buf copy_buf) ms).published,
        ∃ d, Move.receiver d ∈ ms ++ [m] ∧ d ≠ [] ∧ p = d.take VICON_MAX_PKT :=
      fun p hp => mono (ih1 p hp)
    generalize crun (cinit buf copy_buf) ms = c at ih1 ih2 ih1' ⊢
    cases m with
    | callback junk =>
      have e1 : (cstep c (.callback junk)).published = c.published := by
        simp only [cstep]; split <;> (try split) <;> rfl
      have e2 : (cstep c (.callback junk)).rpc = c.rpc := by
        simp only [cstep]; split <;> (try split) <;> rfl
      have e3 : (cstep c (.callback junk)).buf = c.buf := by
        simp only [cstep]; split <;> (try split) <;> rfl
      rw [e1, e2, e3]
      refine ⟨ih1', ?_⟩
      cases hr : c.rpc <;> rw [hr] at ih2 <;> simp only []
      · exact ⟨ih2.1, mono ih2.2⟩
      · exact mono ih2
      · exact mono ih2
    | receiver d =>
      cases hr : c.rpc with
      | recv =>
        simp only [cstep, hr, recvfrom]
        split
        · exact ⟨ih1', trivial⟩
        · rename_i hn
          refine ⟨ih1', ?_, d, by simp, ?_, ?_⟩
          · simp
          · intro e; subst e; simp at hn
          · simp only [Int.toNat_ofNat]
            rw [readBytes_memcpy _ _ _ _ (le_refl _),
              readBytes_memOf _ _ (Nat.min_le_left _ _)]
            simp only [List.take_eq_take, Nat.min_assoc, Nat.min_self, Nat.min_comm]
            simp [Nat.min_comm, Nat.min_left_comm]
      | lock n =>
        rw [hr] at ih2
        obtain ⟨hn, hd⟩ := ih2
        have hcap : (if n > VICON_MAX_PKT then VICON_MAX_PKT else n) = n := by
          split <;> omega
        simp only [cstep, hr, hcap]
        split
        · exact ⟨ih1', mono hd⟩
        · rw [hr]; exact ⟨ih1', hn, mono hd⟩
      | copy n i =>
        rw [hr] at ih2
        simp only [cstep, hr]
        split
        · exact ⟨ih1', mono ih2⟩
        · exact ⟨ih1', mono ih2⟩
      | setlen n =>
        rw [hr] at ih2
        simp only [cstep, hr]
        refine ⟨?_, trivial⟩
        intro p hp
        rcases List.mem_append.mp hp with h | h
        · exact ih1' p h
        · obtain ⟨d2, hd2, hne, he⟩ := ih2
          have : p = readBytes c.buf 0 n := by simpa using h
          exact ⟨d2, List.mem_append_left _ hd2, hne, this.trans he⟩
      | unlock =>
        simp only [cstep, hr]
        exact ⟨ih1', trivial⟩

/-- C13: in every schedule of the two threads, with each `memcpy` cut into single-byte steps
and `last_pkt_mtx` held around lines 204-206 and 241-245, a finished snapshot
(`copy_len`, `copy_buf`) of the callback is empty or is, bytes and length, exactly one packet
published before, and every published packet is a received datagram (its first 2048 bytes):
the snapshot never mixes bytes of two packets. -/
theorem concurrent_snapshot_is_whole (buf copy_buf : Mem) (ms : List Move)
    (h : (crun (cinit buf copy_buf) ms).cpc = CbPc.idle ∨
      (crun (cinit buf copy_buf) ms).cpc = CbPc.unlock) :
    snapshot_whole (crun (cinit buf copy_buf) ms) ∧
    ∀ p ∈ (crun (cinit buf copy_buf) ms).published,
      ∃ d, Move.receiver d ∈ ms ∧ d ≠ [] ∧ p = d.take VICON_MAX_PKT := by
  refine ⟨?_, (published_from_datagrams buf copy_buf ms).1⟩
  obtain ⟨_, _, _, _, h5⟩ := conc_inv_crun ms _ (conc_inv_cinit buf copy_buf)
  rcases h with h | h <;> rw [h] at h5 <;> exact h5

/-- C13 (witness): the schedule `sched0`, at whose end the callback has left its critical
section. -/
theorem concurrent_snapshot_is_whole_witness :
    ((crun (cinit (memOf []) (memOf [])) sched0).cpc = CbPc.idle ∨
      (crun (cinit (memOf []) (memOf [])) sched0).cpc = CbPc.unlock) ∧
    (snapshot_whole (crun (cinit (memOf []) (memOf [])) sched0) ∧
    ∀ p ∈ (crun (cinit (memOf []) (memOf [])) sched0).published,
      ∃ d, Move.receiver d ∈ sched0 ∧ d ≠ [] ∧ p = d.take VICON_MAX_PKT) :=
  ⟨by decide, concurrent_snapshot_is_whole (memOf []) (memOf []) sched0 (by decide)⟩

end ViconViewer
